import Mathlib

/-!
Shallow embedding of `src/main.py` (chess-coach): a script that turns a PGN
archive into a labeled per-move dataset.  The python-chess library and the
UCI engine are external collaborators; they are modelled as an abstract
record of operations (`GameOps`) over an interface board (`BoardI`) that
exposes exactly the queries the script performs.  The script's own logic
(feature construction, history window, evaluation threading, labeling,
game-count loop, and the four positional functions) is translated directly.
-/

/-- The two chess colors (python-chess `chess.WHITE` / `chess.BLACK`). -/
inductive Color where
  | white
  | black
deriving DecidableEq, Repr

/-- Color negation, as in `not board.turn`. -/
def Color.other : Color → Color
  | .white => .black
  | .black => .white

/-- The six piece types. -/
inductive PieceType where
  | pawn
  | knight
  | bishop
  | rook
  | queen
  | king
deriving DecidableEq, Repr

/-- Numeric piece-type codes of python-chess (`chess.PAWN = 1` … `chess.KING = 6`),
the value stored in the `piece` feature. -/
def PieceType.code : PieceType → Nat
  | .pawn => 1
  | .knight => 2
  | .bishop => 3
  | .rook => 4
  | .queen => 5
  | .king => 6

/-- A colored piece. -/
structure Piece where
  ptype : PieceType
  color : Color
deriving DecidableEq, Repr

/-- Interface view of a `chess.Board`: exactly the queries `src/main.py`
makes of a board snapshot.  `occ` is the piece placement (`board.piece_at`);
`turn` the side to move; `check` the value of `board.is_check()`; `fen` the
value of `board.fen()`; `is_attacked_by c sq` the value of
`board.is_attacked_by(c, sq)`. -/
structure BoardI where
  occ : Fin 64 → Option Piece
  turn : Color
  check : Bool
  fen : String
  is_attacked_by : Color → Fin 64 → Bool

/-- The set of squares holding a piece of the given type and color:
`board.pieces(piece_type, color)`. -/
def pieces (b : BoardI) (pt : PieceType) (c : Color) : Finset (Fin 64) :=
  Finset.univ.filter (fun sq => b.occ sq = some ⟨pt, c⟩)

/-- Square constants of python-chess (square = file + 8 * rank, A1 = 0). -/
def sqB1 : Fin 64 := 1
/-- Square C1. -/
def sqC1 : Fin 64 := 2
/-- Square F1. -/
def sqF1 : Fin 64 := 5
/-- Square G1. -/
def sqG1 : Fin 64 := 6
/-- Square B8. -/
def sqB8 : Fin 64 := 57
/-- Square C8. -/
def sqC8 : Fin 64 := 58
/-- Square F8. -/
def sqF8 : Fin 64 := 61
/-- Square G8. -/
def sqG8 : Fin 64 := 62

/-- `chess.square_mirror`: flip the rank, keep the file. -/
def square_mirror (sq : Fin 64) : Fin 64 :=
  ⟨sq.val % 8 + 8 * (7 - sq.val / 8), by omega⟩

/-- `material_balance` (src/main.py lines 104-110): signed sum of piece
values, white minus black, king excluded. -/
def material_balance (b : BoardI) : Int :=
  ([(PieceType.pawn, (1 : Int)), (PieceType.knight, 3), (PieceType.bishop, 3),
    (PieceType.rook, 5), (PieceType.queen, 9)]).foldl
    (fun score pv =>
      score + ((pieces b pv.1 Color.white).card : Int) * pv.2
            - ((pieces b pv.1 Color.black).card : Int) * pv.2)
    0

/-- `developed_pieces` (src/main.py lines 113-123): minors of either color
standing outside the four minor-piece home squares of their color. -/
def developed_pieces (b : BoardI) : Nat :=
  [PieceType.bishop, PieceType.knight].foldl
    (fun dev pt =>
      dev
        + ((pieces b pt Color.white).filter
            (fun sq => ¬ sq ∈ ([sqB1, sqG1, sqC1, sqF1] : List (Fin 64)))).card
        + ((pieces b pt Color.black).filter
            (fun sq => ¬ sq ∈ ([sqB8, sqG8, sqC8, sqF8] : List (Fin 64)))).card)
    0

/-- The piece-square tables of src/main.py lines 127-130: the 8-entry rows
repeated 8 times (python list repetition), with `pst.get(piece, [0]*64)`
defaulting every other piece type to the zero table. -/
def pstTable (pt : PieceType) : List Int :=
  match pt with
  | .pawn => (List.replicate 8 ([0, 5, 5, 0, 5, 10, 50, 0] : List Int)).flatten
  | .knight => (List.replicate 8 ([-50, -40, -30, -30, -30, -30, -40, -50] : List Int)).flatten
  | _ => List.replicate 64 0

/-- `piece_square_table` (src/main.py lines 126-137): white pieces add their
table entry, black pieces subtract the entry at the mirrored square. -/
def piece_square_table (b : BoardI) : Int :=
  [PieceType.pawn, PieceType.knight, PieceType.bishop,
   PieceType.rook, PieceType.queen, PieceType.king].foldl
    (fun score pt =>
      score + (pieces b pt Color.white).sum (fun sq => (pstTable pt).getD sq.val 0)
            - (pieces b pt Color.black).sum
                (fun sq => (pstTable pt).getD (square_mirror sq).val 0))
    0

/-- `opponent_threat_count` (src/main.py lines 140-145): squares attacked by
the side not to move. -/
def opponent_threat_count (b : BoardI) : Nat :=
  (List.finRange 64).foldl
    (fun threats sq =>
      if b.is_attacked_by b.turn.other sq then threats + 1 else threats)
    0

/-- Modelled from the spec: the engine's signed score, "a centipawn
evaluation or mate indicator" — python-chess `Cp` / `Mate` are library code
not present in src/. -/
inductive ScoreKind where
  | cp : Int → ScoreKind
  | mate : Int → ScoreKind
deriving DecidableEq, Repr

/-- Modelled from the spec: negating a score flips the point of view. -/
def ScoreKind.neg : ScoreKind → ScoreKind
  | .cp v => .cp (-v)
  | .mate n => .mate (-n)

/-- Modelled from the spec: a score together with the point of view it is
relative to (python-chess `PovScore`, library code not present in src/). -/
structure PovScore where
  relative : ScoreKind
  pov : Color
deriving DecidableEq, Repr

/-- Modelled from the spec: `PovScore.white()` — the score re-expressed from
the fixed reference side's (white's) perspective, regardless of `pov`. -/
def PovScore.white (s : PovScore) : ScoreKind :=
  match s.pov with
  | .white => s.relative
  | .black => s.relative.neg

/-- Modelled from the spec: `Score.score(mate_score=…)` — "convert the
returned signed score to a single numeric value …, with mate positions
mapped to a large constant magnitude (±10000)". -/
def ScoreKind.score (s : ScoreKind) (mate_score : Int) : Int :=
  match s with
  | .cp v => v
  | .mate n => if 0 < n then mate_score else -mate_score

/-- The per-move library/engine operations `extract_features_from_game`
performs, abstract in the move type `M`: `board.push`, `board.is_capture`,
`board.is_castling`, `move.from_square`, `move.to_square`, and the engine
call `engine.analyse(board, …)["score"]` (`analyse` returning `none` models
the "no usable score" case checked at src/main.py line 50). -/
structure GameOps (M : Type) where
  push : BoardI → M → BoardI
  is_capture : BoardI → M → Bool
  is_castling : BoardI → M → Bool
  from_square : M → Fin 64
  to_square : M → Fin 64
  analyse : BoardI → Option PovScore

/-- A move feature record (the `feat` dict of src/main.py lines 21-42).
The optional `prev_*` fields are `none` when the corresponding key is
absent from the dict. -/
structure Feat where
  move_number : Nat
  piece : Nat
  from_square : Nat
  to_square : Nat
  is_capture : Bool
  is_check : Bool
  is_castle : Bool
  fen : String
  material_balance : Int
  developed_pieces : Nat
  pst_score : Int
  opponent_threats : Nat
  prev_1_piece : Option Nat := none
  prev_1_is_capture : Option Bool := none
  prev_2_piece : Option Nat := none
  prev_2_is_capture : Option Bool := none
deriving DecidableEq, Repr

/-- Construction of one move's feature record (src/main.py lines 18-42):
the base fields and positional signals from the pre-move board, then the
history fields from `move_history[-2:]` via `enumerate(…, 1)` — index 1 is
the first element of the slice. -/
def mkFeat {M : Type} (ops : GameOps M) (board : BoardI) (move_number : Nat)
    (move : M) (move_history : List Feat) : Feat :=
  let base : Feat := {
    move_number := move_number
    piece := match board.occ (ops.from_square move) with
             | some p => p.ptype.code
             | none => 0
    from_square := (ops.from_square move).val
    to_square := (ops.to_square move).val
    is_capture := ops.is_capture board move
    is_check := board.check
    is_castle := ops.is_castling board move
    fen := board.fen
    material_balance := material_balance board
    developed_pieces := developed_pieces board
    pst_score := piece_square_table board
    opponent_threats := opponent_threat_count board }
  match move_history.drop (move_history.length - 2) with
  | [] => base
  | [p1] => { base with
      prev_1_piece := some p1.piece
      prev_1_is_capture := some p1.is_capture }
  | p1 :: p2 :: _ => { base with
      prev_1_piece := some p1.piece
      prev_1_is_capture := some p1.is_capture
      prev_2_piece := some p2.piece
      prev_2_is_capture := some p2.is_capture }

/-- The labeling of src/main.py lines 54-60 applied to
`diff = prev_eval - eval_score`. -/
def labelOf (diff : Int) : String :=
  if diff < 20 then "good"
  else if diff > 100 then "blunder"
  else "inaccuracy"

/-- The per-move loop of `extract_features_from_game` (src/main.py lines
15-65), with the loop state (`move_number`, `prev_eval`, `move_history`,
`features`, `labels`) passed explicitly. -/
def extractLoop {M : Type} (ops : GameOps M) (moves : List M) (board : BoardI)
    (move_number : Nat) (prev_eval : Int)
    (move_history features : List Feat) (labels : List String) :
    List Feat × List String :=
  match moves with
  | [] => (features, labels)
  | move :: rest =>
    let mn := move_number + 1
    let feat := mkFeat ops board mn move move_history
    let board2 := ops.push board move
    let eval_score :=
      ((ops.analyse board2).map
        (fun info => ScoreKind.score (PovScore.white info) 10000)).getD prev_eval
    let label := labelOf (prev_eval - eval_score)
    extractLoop ops rest board2 mn eval_score
      (move_history ++ [feat]) (features ++ [feat]) (labels ++ [label])

/-- A parsed game: its initial board (`game.board()`) and the mainline
move list (`game.mainline_moves()`). -/
structure Game (M : Type) where
  board : BoardI
  mainline_moves : List M

/-- `extract_features_from_game` (src/main.py lines 6-69).  The final
`print(features[-1], "->", labels[-1])` indexes the last element of both
lists; on an empty game this raises `IndexError`, modelled as `none`. -/
def extract_features_from_game {M : Type} (ops : GameOps M) (game : Game M) :
    Option (List Feat × List String) :=
  let r := extractLoop ops game.mainline_moves game.board 0 0 [] [] []
  if r.1.isEmpty then none else some r

/-- The game-reading loop of `build_dataset` (src/main.py lines 79-90): at
most 500 games are read; `read_game` returning `None` (the archive list
running out) stops it.  Returns the final `game_count` and the games that
were fed to feature extraction. -/
def buildLoop {α : Type} (archive : List α) (game_count : Nat)
    (processed : List α) : Nat × List α :=
  if game_count < 500 then
    match archive with
    | [] => (game_count, processed)
    | g :: rest => buildLoop rest (game_count + 1) (processed ++ [g])
  else (game_count, processed)
termination_by archive.length

/-- `build_dataset` (src/main.py lines 72-101), restricted to its game
loop: the archive is the list of games `chess.pgn.read_game` yields. -/
def build_dataset {α : Type} (archive : List α) : Nat × List α :=
  buildLoop archive 0 []

/-- The features produced by the loop from a given state, without the
accumulators: each record is built from the running board, move number and
history, which then advance exactly as in the loop. -/
def featsFrom {M : Type} (ops : GameOps M) (board : BoardI) (mn : Nat)
    (hist : List Feat) : List M → List Feat
  | [] => []
  | move :: rest =>
    let f := mkFeat ops board (mn + 1) move hist
    f :: featsFrom ops (ops.push board move) (mn + 1) (hist ++ [f]) rest

/-- The successive values of `eval_score` along the loop, starting from a
given `prev_eval`. -/
def evalSeq {M : Type} (ops : GameOps M) (board : BoardI) (prev : Int) :
    List M → List Int
  | [] => []
  | move :: rest =>
    let board2 := ops.push board move
    let e := ((ops.analyse board2).map
      (fun info => ScoreKind.score (PovScore.white info) 10000)).getD prev
    e :: evalSeq ops board2 e rest

/-- The successive values of `diff = prev_eval - eval_score` along the loop. -/
def deltaSeq {M : Type} (ops : GameOps M) (board : BoardI) (prev : Int) :
    List M → List Int
  | [] => []
  | move :: rest =>
    let board2 := ops.push board move
    let e := ((ops.analyse board2).map
      (fun info => ScoreKind.score (PovScore.white info) 10000)).getD prev
    (prev - e) :: deltaSeq ops board2 e rest

/-- The board before the `i`-th move (0-based): the initial board with the
first `i` moves pushed. -/
def boardAt {M : Type} (ops : GameOps M) (board : BoardI) (moves : List M)
    (i : Nat) : BoardI :=
  (moves.take i).foldl ops.push board

/-- The feature list produced by the loop as `extract_features_from_game`
invokes it (initial state: move 0, `prev_eval = 0`, empty history). -/
def loopFeats {M : Type} (ops : GameOps M) (g : Game M) : List Feat :=
  (extractLoop ops g.mainline_moves g.board 0 0 [] [] []).1

/-- The label list produced by the loop as `extract_features_from_game`
invokes it. -/
def loopLabels {M : Type} (ops : GameOps M) (g : Game M) : List String :=
  (extractLoop ops g.mainline_moves g.board 0 0 [] [] []).2

/-- Spec-side characterisation for the developed-pieces claim: a square
holding a minor piece (bishop or knight) that is not standing on the
minor-piece starting squares of its color. -/
def isDevelopedMinor (b : BoardI) (sq : Fin 64) : Bool :=
  match b.occ sq with
  | some p =>
      (decide (p.ptype = PieceType.bishop) || decide (p.ptype = PieceType.knight))
        && (match p.color with
            | Color.white => decide (¬ sq ∈ ([sqB1, sqG1, sqC1, sqF1] : List (Fin 64)))
            | Color.black => decide (¬ sq ∈ ([sqB8, sqG8, sqC8, sqF8] : List (Fin 64))))
  | none => false

/-- Modelled from the spec: the "color-swapped mirror board" of the
antisymmetry property — each piece moved to its vertically mirrored square
with its color swapped (python-chess `Board.mirror()`, library code not
present in src/). -/
def mirrorBoard (b : BoardI) : BoardI :=
  { occ := fun sq => (b.occ (square_mirror sq)).map (fun p => ⟨p.ptype, p.color.other⟩)
    turn := b.turn.other
    check := b.check
    fen := b.fen
    is_attacked_by := fun c sq => b.is_attacked_by c.other (square_mirror sq) }

/-- A concrete feature record, used as the `getD` default in witnesses. -/
def feat0 : Feat :=
  { move_number := 0, piece := 0, from_square := 0, to_square := 0,
    is_capture := false, is_check := false, is_castle := false, fen := "",
    material_balance := 0, developed_pieces := 0, pst_score := 0,
    opponent_threats := 0 }

/-- An empty board snapshot, for concrete test games. -/
def emptyBoard : BoardI :=
  { occ := fun _ => none, turn := Color.white, check := false, fen := "",
    is_attacked_by := fun _ _ => false }

/-- Trivial operations over unit moves: the board never changes and the
engine never produces a score. -/
def trivOps : GameOps Unit :=
  { push := fun b _ => b, is_capture := fun _ _ => false,
    is_castling := fun _ _ => false, from_square := fun _ => 0,
    to_square := fun _ => 0, analyse := fun _ => none }

/-- A one-move game on the empty board. -/
def trivGame : Game Unit :=
  { board := emptyBoard, mainline_moves := [()] }

/-- Operations whose `push` puts the resulting board in check: the pre-move
board is never in check, every post-move board is. -/
def checkOps : GameOps Unit :=
  { push := fun b _ => { b with check := true }, is_capture := fun _ _ => false,
    is_castling := fun _ _ => false, from_square := fun _ => 0,
    to_square := fun _ => 0, analyse := fun _ => none }

/-- A board where square 0 holds a white pawn (piece code 1) and square 1 a
white knight (piece code 2). -/
def probeBoard : BoardI :=
  { occ := fun sq =>
      if sq = (0 : Fin 64) then some ⟨PieceType.pawn, Color.white⟩
      else if sq = (1 : Fin 64) then some ⟨PieceType.knight, Color.white⟩
      else none,
    turn := Color.white, check := false, fen := "",
    is_attacked_by := fun _ _ => false }

/-- Operations where a move is just its origin square, so successive feature
records carry distinguishable `piece` values. -/
def probeOps : GameOps (Fin 64) :=
  { push := fun b _ => b, is_capture := fun _ _ => false,
    is_castling := fun _ _ => false, from_square := fun m => m,
    to_square := fun m => m, analyse := fun _ => none }

/-- A three-move game over `probeBoard`: the first move originates from
square 0 (pawn), the second from square 1 (knight), the third from square 2. -/
def probeGame : Game (Fin 64) :=
  { board := probeBoard, mainline_moves := [0, 1, 2] }

theorem extractLoop_eq {M : Type} (ops : GameOps M) :
    ∀ (moves : List M) (board : BoardI) (mn : Nat) (pe : Int)
      (hist fs : List Feat) (ls : List String),
      extractLoop ops moves board mn pe hist fs ls =
        (fs ++ featsFrom ops board mn hist moves,
         ls ++ (deltaSeq ops board pe moves).map labelOf) := by
  intro moves
  induction moves with
  | nil => intro board mn pe hist fs ls; simp [extractLoop, featsFrom, deltaSeq]
  | cons m rest ih =>
    intro board mn pe hist fs ls
    simp only [extractLoop, featsFrom, deltaSeq, List.map_cons]
    rw [ih]
    simp

theorem featsFrom_length {M : Type} (ops : GameOps M) :
    ∀ (moves : List M) (board : BoardI) (mn : Nat) (hist : List Feat),
      (featsFrom ops board mn hist moves).length = moves.length := by
  intro moves
  induction moves with
  | nil => intro board mn hist; simp [featsFrom]
  | cons m rest ih => intro board mn hist; simp [featsFrom, ih]

theorem deltaSeq_length {M : Type} (ops : GameOps M) :
    ∀ (moves : List M) (board : BoardI) (pe : Int),
      (deltaSeq ops board pe moves).length = moves.length := by
  intro moves
  induction moves with
  | nil => intro board pe; simp [deltaSeq]
  | cons m rest ih => intro board pe; simp [deltaSeq, ih]

theorem evalSeq_length {M : Type} (ops : GameOps M) :
    ∀ (moves : List M) (board : BoardI) (pe : Int),
      (evalSeq ops board pe moves).length = moves.length := by
  intro moves
  induction moves with
  | nil => intro board pe; simp [evalSeq]
  | cons m rest ih => intro board pe; simp [evalSeq, ih]

theorem deltaSeq_zip {M : Type} (ops : GameOps M) :
    ∀ (moves : List M) (board : BoardI) (pe : Int),
      deltaSeq ops board pe moves =
        List.zipWith (fun p c => p - c)
          (pe :: evalSeq ops board pe moves) (evalSeq ops board pe moves) := by
  intro moves
  induction moves with
  | nil => intro board pe; simp [deltaSeq, evalSeq]
  | cons m rest ih =>
    intro board pe
    simp only [deltaSeq, evalSeq, List.zipWith]
    rw [ih]

theorem mkFeat_is_check {M : Type} (ops : GameOps M) (b : BoardI) (mn : Nat)
    (m : M) (hist : List Feat) : (mkFeat ops b mn m hist).is_check = b.check := by
  unfold mkFeat
  split <;> split <;> rfl

theorem mkFeat_prev_nil {M : Type} (ops : GameOps M) (b : BoardI) (mn : Nat)
    (m : M) (hist : List Feat) (h : hist.drop (hist.length - 2) = []) :
    (mkFeat ops b mn m hist).prev_1_piece = none ∧
    (mkFeat ops b mn m hist).prev_1_is_capture = none ∧
    (mkFeat ops b mn m hist).prev_2_piece = none ∧
    (mkFeat ops b mn m hist).prev_2_is_capture = none := by
  unfold mkFeat
  rw [h]
  exact ⟨rfl, rfl, rfl, rfl⟩

theorem mkFeat_prev_one {M : Type} (ops : GameOps M) (b : BoardI) (mn : Nat)
    (m : M) (hist : List Feat) (p1 : Feat)
    (h : hist.drop (hist.length - 2) = [p1]) :
    (mkFeat ops b mn m hist).prev_1_piece = some p1.piece ∧
    (mkFeat ops b mn m hist).prev_1_is_capture = some p1.is_capture ∧
    (mkFeat ops b mn m hist).prev_2_piece = none ∧
    (mkFeat ops b mn m hist).prev_2_is_capture = none := by
  unfold mkFeat
  rw [h]
  exact ⟨rfl, rfl, rfl, rfl⟩

theorem mkFeat_prev_two {M : Type} (ops : GameOps M) (b : BoardI) (mn : Nat)
    (m : M) (hist : List Feat) (p1 p2 : Feat) (t : List Feat)
    (h : hist.drop (hist.length - 2) = p1 :: p2 :: t) :
    (mkFeat ops b mn m hist).prev_1_piece = some p1.piece ∧
    (mkFeat ops b mn m hist).prev_1_is_capture = some p1.is_capture ∧
    (mkFeat ops b mn m hist).prev_2_piece = some p2.piece ∧
    (mkFeat ops b mn m hist).prev_2_is_capture = some p2.is_capture := by
  unfold mkFeat
  rw [h]
  exact ⟨rfl, rfl, rfl, rfl⟩

theorem featsFrom_take {M : Type} (ops : GameOps M) :
    ∀ (moves : List M) (board : BoardI) (mn : Nat) (hist : List Feat) (i : Nat),
      featsFrom ops board mn hist (moves.take i)
        = (featsFrom ops board mn hist moves).take i := by
  intro moves
  induction moves with
  | nil => intro board mn hist i; simp [featsFrom]
  | cons mv rest ih =>
    intro board mn hist i
    cases i with
    | zero => simp [featsFrom]
    | succ i => simp [featsFrom, List.take_succ_cons, ih]

theorem featsFrom_getD {M : Type} (ops : GameOps M) :
    ∀ (moves : List M) (board : BoardI) (mn : Nat) (hist : List Feat)
      (i : Nat) (d : Feat), i < moves.length →
      ∃ m : M, (featsFrom ops board mn hist moves).getD i d
        = mkFeat ops (boardAt ops board moves i) (mn + i + 1) m
            (hist ++ (featsFrom ops board mn hist moves).take i) := by
  intro moves
  induction moves with
  | nil => intro board mn hist i d h; simp at h
  | cons mv rest ih =>
    intro board mn hist i d h
    cases i with
    | zero =>
      refine ⟨mv, ?_⟩
      simp [featsFrom, boardAt]
    | succ i =>
      obtain ⟨m, hm⟩ :=
        ih (ops.push board mv) (mn + 1)
          (hist ++ [mkFeat ops board (mn + 1) mv hist]) i d (by simpa using h)
      refine ⟨m, ?_⟩
      have hb : boardAt ops board (mv :: rest) (i + 1)
          = boardAt ops (ops.push board mv) rest i := by
        simp [boardAt, List.take_succ_cons]
      have hn : mn + (i + 1) + 1 = (mn + 1) + i + 1 := by omega
      simp only [featsFrom, List.getD_cons_succ, List.take_succ_cons, hb, hn]
      rw [hm]
      simp

theorem getD_take_lt {α : Type} :
    ∀ (l : List α) (n i : Nat) (d : α), i < n →
      (l.take n).getD i d = l.getD i d := by
  intro l
  induction l with
  | nil => intro n i d _; simp
  | cons a t ih =>
    intro n i d h
    cases n with
    | zero => omega
    | succ n =>
      cases i with
      | zero => simp
      | succ i => simpa using ih n i d (by omega)

theorem drop_len_sub_two {α : Type} (d : α) :
    ∀ (l : List α) (n : Nat), l.length = n + 2 →
      l.drop n = [l.getD n d, l.getD (n + 1) d] := by
  intro l
  induction l with
  | nil => intro n h; simp at h
  | cons a t ih =>
    intro n h
    cases n with
    | zero =>
      cases t with
      | nil => simp at h
      | cons b t2 =>
        cases t2 with
        | nil => rfl
        | cons c t3 => simp at h
    | succ n =>
      have ht : t.length = n + 2 := by
        simpa using h
      simpa using ih n ht

theorem getD_map_lt {α β : Type} (f : α → β) :
    ∀ (l : List α) (n : Nat) (d : α) (d2 : β), n < l.length →
      (l.map f).getD n d2 = f (l.getD n d) := by
  intro l
  induction l with
  | nil => intro n d d2 h; simp at h
  | cons a t ih =>
    intro n d d2 h
    cases n with
    | zero => simp
    | succ n => simpa using ih n d d2 (by simpa using h)

theorem take_one_getD {α : Type} (l : List α) (d : α) (h : 0 < l.length) :
    l.take 1 = [l.getD 0 d] := by
  cases l with
  | nil => simp at h
  | cons a t => simp

theorem evalSeq_none_getD {M : Type} (ops : GameOps M) :
    ∀ (moves : List M) (board : BoardI) (pe : Int) (n : Nat),
      n < moves.length →
      ops.analyse (boardAt ops board moves (n + 1)) = none →
      (evalSeq ops board pe moves).getD n 0
        = (if n = 0 then pe else (evalSeq ops board pe moves).getD (n - 1) 0) ∧
      (deltaSeq ops board pe moves).getD n 1 = 0 := by
  intro moves
  induction moves with
  | nil => intro board pe n h _; simp at h
  | cons mv rest ih =>
    intro board pe n hlen hnone
    have hb : boardAt ops board (mv :: rest) (n + 1)
        = boardAt ops (ops.push board mv) rest n := by
      simp [boardAt, List.take_succ_cons]
    rw [hb] at hnone
    cases n with
    | zero =>
      have h0 : boardAt ops (ops.push board mv) rest 0 = ops.push board mv := by
        simp [boardAt]
      rw [h0] at hnone
      constructor
      · simp [evalSeq, hnone]
      · simp [deltaSeq, hnone]
    | succ k =>
      have h1 : k < rest.length := by simpa using hlen
      obtain ⟨he, hd⟩ :=
        ih (ops.push board mv)
          (((ops.analyse (ops.push board mv)).map
            (fun info => ScoreKind.score (PovScore.white info) 10000)).getD pe)
          k h1 hnone
      constructor
      · simp only [evalSeq, List.getD_cons_succ, Nat.succ_ne_zero, if_false,
          Nat.add_sub_cancel]
        cases k with
        | zero => simpa using he
        | succ j => simpa using he
      · simp only [deltaSeq, List.getD_cons_succ]
        exact hd

theorem buildLoop_spec {α : Type} :
    ∀ (archive : List α) (c : Nat) (p : List α), c ≤ 500 →
      buildLoop archive c p
        = (min 500 (c + archive.length), p ++ archive.take (500 - c)) := by
  intro archive
  induction archive with
  | nil =>
    intro c p hc
    unfold buildLoop
    split
    · simp; omega
    · simp; omega
  | cons g rest ih =>
    intro c p hc
    unfold buildLoop
    split
    · next h =>
      show buildLoop rest (c + 1) (p ++ [g])
        = (min 500 (c + (g :: rest).length), p ++ (g :: rest).take (500 - c))
      rw [ih (c + 1) (p ++ [g]) (by omega)]
      have htake : (g :: rest).take (500 - c) = g :: rest.take (500 - (c + 1)) := by
        have h5 : 500 - c = (500 - (c + 1)) + 1 := by omega
        rw [h5, List.take_succ_cons]
      rw [htake]
      simp only [Prod.mk.injEq, List.length_cons, List.append_assoc,
        List.singleton_append]
      exact ⟨by omega, trivial⟩
    · next h =>
      have hc500 : c = 500 := by omega
      subst hc500
      simp

theorem square_mirror_invol : Function.Involutive square_mirror := by
  intro sq
  have h := sq.isLt
  apply Fin.ext
  simp only [square_mirror]
  omega

theorem Color_other_other : ∀ c : Color, c.other.other = c := by
  intro c; cases c <;> rfl

theorem pieces_mirrorBoard (b : BoardI) (pt : PieceType) (c : Color) :
    pieces (mirrorBoard b) pt c = (pieces b pt c.other).image square_mirror := by
  ext sq
  simp only [pieces, mirrorBoard, Finset.mem_image, Finset.mem_filter,
    Finset.mem_univ, true_and, Option.map_eq_some']
  constructor
  · rintro ⟨p, hp, hswap⟩
    refine ⟨square_mirror sq, ?_, square_mirror_invol sq⟩
    have hpt : p.ptype = pt := congrArg Piece.ptype hswap
    have hcol : p.color = c.other := by
      have h2 : p.color.other = c := congrArg Piece.color hswap
      rw [← h2, Color_other_other]
    rw [hp]
    cases p
    simp only at hpt hcol
    rw [hpt, hcol]
  · rintro ⟨y, hy, rfl⟩
    refine ⟨⟨pt, c.other⟩, ?_, ?_⟩
    · rw [square_mirror_invol y]; exact hy
    · simp [Color_other_other]

theorem loopFeats_eq {M : Type} (ops : GameOps M) (g : Game M) :
    loopFeats ops g = featsFrom ops g.board 0 [] g.mainline_moves := by
  unfold loopFeats
  rw [extractLoop_eq]
  simp

theorem loopLabels_eq {M : Type} (ops : GameOps M) (g : Game M) :
    loopLabels ops g = (deltaSeq ops g.board 0 g.mainline_moves).map labelOf := by
  unfold loopLabels
  rw [extractLoop_eq]
  simp

theorem extract_some_of_ne_nil {M : Type} (ops : GameOps M) (g : Game M)
    (h : g.mainline_moves ≠ []) :
    extract_features_from_game ops g
      = some (featsFrom ops g.board 0 [] g.mainline_moves,
              (deltaSeq ops g.board 0 g.mainline_moves).map labelOf) := by
  have h1 := featsFrom_length ops g.mainline_moves g.board 0 []
  have hne : (featsFrom ops g.board 0 [] g.mainline_moves).isEmpty = false := by
    cases hF : featsFrom ops g.board 0 [] g.mainline_moves with
    | nil =>
      rw [hF] at h1
      simp only [List.length_nil] at h1
      exact absurd (List.length_eq_zero.mp h1.symm) h
    | cons f t => rfl
  unfold extract_features_from_game
  rw [extractLoop_eq]
  simp only [List.nil_append]
  rw [hne]
  simp

/-- C1: for every move, with `delta = previous_evaluation - current_evaluation`,
the label is "good" exactly when `delta < 20`, "blunder" exactly when
`delta > 100`, and "inaccuracy" otherwise; in particular `delta = 19` gives
"good", `delta = 20` and `delta = 100` give "inaccuracy", and `delta = 101`
gives "blunder"; and the loop's label sequence is exactly `labelOf` applied
to the successive deltas. -/
theorem claim_c1_label_thresholds :
    (∀ d : Int, (labelOf d = "good" ↔ d < 20) ∧
       (labelOf d = "blunder" ↔ 100 < d) ∧
       (labelOf d = "inaccuracy" ↔ 20 ≤ d ∧ d ≤ 100)) ∧
    labelOf 19 = "good" ∧ labelOf 20 = "inaccuracy" ∧
    labelOf 100 = "inaccuracy" ∧ labelOf 101 = "blunder" ∧
    (∀ (M : Type) (ops : GameOps M) (g : Game M),
      loopLabels ops g = (deltaSeq ops g.board 0 g.mainline_moves).map labelOf) := by
  refine ⟨?_, by decide, by decide, by decide, by decide, fun M ops g => loopLabels_eq ops g⟩
  intro d
  unfold labelOf
  split_ifs with h1 h2
  · exact ⟨⟨fun _ => h1, fun _ => rfl⟩,
      ⟨fun hx => absurd hx (by decide), fun hx => absurd hx (by omega)⟩,
      ⟨fun hx => absurd hx (by decide), fun hx => absurd hx.1 (by omega)⟩⟩
  · exact ⟨⟨fun hx => absurd hx (by decide), fun hx => absurd hx h1⟩,
      ⟨fun _ => h2, fun _ => rfl⟩,
      ⟨fun hx => absurd hx (by decide), fun hx => absurd hx.2 (by omega)⟩⟩
  · exact ⟨⟨fun hx => absurd hx (by decide), fun hx => absurd hx h1⟩,
      ⟨fun hx => absurd hx (by decide), fun hx => absurd hx h2⟩,
      ⟨fun _ => ⟨by omega, by omega⟩, fun _ => rfl⟩⟩

/-- C3: for every game with a nonempty mainline, `extract_features_from_game`
returns two sequences of equal length, one entry of each per mainline move. -/
theorem claim_c3_parallel_lengths (M : Type) (ops : GameOps M) (g : Game M)
    (h : g.mainline_moves ≠ []) :
    ∃ fs ls, extract_features_from_game ops g = some (fs, ls) ∧
      fs.length = g.mainline_moves.length ∧
      ls.length = g.mainline_moves.length := by
  refine ⟨featsFrom ops g.board 0 [] g.mainline_moves,
    (deltaSeq ops g.board 0 g.mainline_moves).map labelOf,
    extract_some_of_ne_nil ops g h,
    featsFrom_length ops g.mainline_moves g.board 0 [], ?_⟩
  rw [List.length_map]
  exact deltaSeq_length ops g.mainline_moves g.board 0

/-- Witness for C3 at a concrete one-move game. -/
theorem claim_c3_witness :
    trivGame.mainline_moves ≠ [] ∧
    (∃ fs ls, extract_features_from_game trivOps trivGame = some (fs, ls) ∧
      fs.length = trivGame.mainline_moves.length ∧
      ls.length = trivGame.mainline_moves.length) :=
  ⟨by decide, claim_c3_parallel_lengths Unit trivOps trivGame (by decide)⟩

/-- C4: the previous-evaluation baseline of move `n` is the evaluation of
move `n - 1` (0 for the first move): the delta sequence is pointwise
`previous - current` over the evaluation sequence shifted by the initial 0;
the loop's labels are exactly the labels of those deltas; and the
score-conversion step yields the white-perspective value regardless of
whose turn the point of view is, with mate scores mapped to magnitude
10000. -/
theorem claim_c4_eval_invariant :
    (∀ (M : Type) (ops : GameOps M) (g : Game M),
      deltaSeq ops g.board 0 g.mainline_moves
        = List.zipWith (fun p c => p - c)
            (0 :: evalSeq ops g.board 0 g.mainline_moves)
            (evalSeq ops g.board 0 g.mainline_moves)) ∧
    (∀ (M : Type) (ops : GameOps M) (g : Game M),
      loopLabels ops g
        = (List.zipWith (fun p c => p - c)
            (0 :: evalSeq ops g.board 0 g.mainline_moves)
            (evalSeq ops g.board 0 g.mainline_moves)).map labelOf) ∧
    (∀ w : ScoreKind,
      PovScore.white { relative := w, pov := Color.white } = w ∧
      PovScore.white { relative := w.neg, pov := Color.black } = w) ∧
    (∀ n : Int, ScoreKind.score (ScoreKind.mate n) 10000 = 10000 ∨
      ScoreKind.score (ScoreKind.mate n) 10000 = -10000) := by
  refine ⟨fun M ops g => deltaSeq_zip ops g.mainline_moves g.board 0, ?_, ?_, ?_⟩
  · intro M ops g
    rw [loopLabels_eq, deltaSeq_zip]
  · intro w
    refine ⟨rfl, ?_⟩
    show w.neg.neg = w
    cases w <;> simp [ScoreKind.neg]
  · intro n
    by_cases h : 0 < n
    · exact Or.inl (by simp [ScoreKind.score, h])
    · exact Or.inr (by simp [ScoreKind.score, h])

/-- C6: `build_dataset` processes exactly the first `min 500 n` games of an
`n`-game archive, and terminates with that count. -/
theorem claim_c6_game_cap (α : Type) (archive : List α) :
    build_dataset archive = (min 500 archive.length, archive.take 500) := by
  unfold build_dataset
  rw [buildLoop_spec archive 0 [] (by omega)]
  simp

/-- C10: on a game with zero mainline moves `extract_features_from_game`
fails (the final indexing of the empty feature list, modelled as `none`);
with a nonempty mainline the failure branch is unreachable and a result is
always returned. -/
theorem claim_c10_empty_game :
    (∀ (M : Type) (ops : GameOps M) (b : BoardI),
      extract_features_from_game ops { board := b, mainline_moves := ([] : List M) }
        = none) ∧
    (∀ (M : Type) (ops : GameOps M) (g : Game M), g.mainline_moves ≠ [] →
      ∃ r, extract_features_from_game ops g = some r) := by
  constructor
  · intro M ops b; rfl
  · intro M ops g h
    exact ⟨_, extract_some_of_ne_nil ops g h⟩

/-- Witness for C10's nonempty-mainline part at a concrete one-move game. -/
theorem claim_c10_witness :
    trivGame.mainline_moves ≠ [] ∧
    (∃ r, extract_features_from_game trivOps trivGame = some r) :=
  ⟨by decide, claim_c10_empty_game.2 Unit trivOps trivGame (by decide)⟩

/-- C5: when the oracle yields no usable score for move `n`, that move's
evaluation equals the previous move's evaluation (0 for the first move), its
delta is 0 and its label is "good"; no error is surfaced (the extraction
still returns a result). -/
theorem claim_c5_missing_score (M : Type) (ops : GameOps M) (g : Game M)
    (n : Nat) (hn : n < g.mainline_moves.length)
    (hnone : ops.analyse (boardAt ops g.board g.mainline_moves (n + 1)) = none) :
    ∃ fs ls, extract_features_from_game ops g = some (fs, ls) ∧
      (evalSeq ops g.board 0 g.mainline_moves).getD n 0
        = (if n = 0 then 0
           else (evalSeq ops g.board 0 g.mainline_moves).getD (n - 1) 0) ∧
      (deltaSeq ops g.board 0 g.mainline_moves).getD n 1 = 0 ∧
      ls.getD n "" = "good" := by
  obtain ⟨he, hd⟩ := evalSeq_none_getD ops g.mainline_moves g.board 0 n hn hnone
  have hne : g.mainline_moves ≠ [] := by
    intro hnil
    rw [hnil] at hn
    simp at hn
  refine ⟨featsFrom ops g.board 0 [] g.mainline_moves,
    (deltaSeq ops g.board 0 g.mainline_moves).map labelOf,
    extract_some_of_ne_nil ops g hne, he, hd, ?_⟩
  have hlen : n < (deltaSeq ops g.board 0 g.mainline_moves).length := by
    rw [deltaSeq_length]
    exact hn
  rw [getD_map_lt labelOf (deltaSeq ops g.board 0 g.mainline_moves) n 1 "" hlen, hd]
  rfl

/-- Witness for C5: a one-move game whose oracle never returns a score. -/
theorem claim_c5_witness :
    0 < trivGame.mainline_moves.length ∧
    trivOps.analyse (boardAt trivOps trivGame.board trivGame.mainline_moves 1) = none ∧
    (∃ fs ls, extract_features_from_game trivOps trivGame = some (fs, ls) ∧
      (evalSeq trivOps trivGame.board 0 trivGame.mainline_moves).getD 0 0
        = (if 0 = 0 then 0
           else (evalSeq trivOps trivGame.board 0 trivGame.mainline_moves).getD (0 - 1) 0) ∧
      (deltaSeq trivOps trivGame.board 0 trivGame.mainline_moves).getD 0 1 = 0 ∧
      ls.getD 0 "" = "good") :=
  ⟨by decide, rfl, claim_c5_missing_score Unit trivOps trivGame 0 (by decide) rfl⟩

/-- C8: the `is_check` feature of move `i` is the check status of the board
before the move is applied; concretely, with operations whose `push` always
yields a board in check, the recorded flag is still `false` while the
post-move board is in check. -/
theorem claim_c8_pre_move_check :
    (∀ (M : Type) (ops : GameOps M) (g : Game M) (i : Nat) (d : Feat),
      i < g.mainline_moves.length →
      ((loopFeats ops g).getD i d).is_check
        = (boardAt ops g.board g.mainline_moves i).check) ∧
    ((loopFeats checkOps trivGame).getD 0 feat0).is_check = false ∧
    (checkOps.push trivGame.board ()).check = true := by
  refine ⟨?_, by decide, rfl⟩
  intro M ops g i d hi
  rw [loopFeats_eq]
  obtain ⟨m, hm⟩ := featsFrom_getD ops g.mainline_moves g.board 0 [] i d hi
  rw [hm, mkFeat_is_check]

/-- Witness for C8's universal part at a concrete one-move game. -/
theorem claim_c8_witness :
    0 < trivGame.mainline_moves.length ∧
    ((loopFeats trivOps trivGame).getD 0 feat0).is_check
      = (boardAt trivOps trivGame.board trivGame.mainline_moves 0).check :=
  ⟨by decide, claim_c8_pre_move_check.1 Unit trivOps trivGame 0 feat0 (by decide)⟩

/-- Counterexample to C2 as stated: in the three-move probe game the third
record's `prev_1_piece` is the piece of the move two prior (the pawn, code
1), not the piece of the immediately prior move (the knight, code 2). -/
theorem claim_c2_counterexample :
    ¬ (((loopFeats probeOps probeGame).getD 2 feat0).prev_1_piece
        = some (((loopFeats probeOps probeGame).getD 1 feat0).piece)) := by
  decide

/-- C2 (amended): the history fields are keyed oldest-first over the window
of the last two records: for the third move on, `prev_1_*` comes from the
record two moves prior and `prev_2_*` from the immediately prior record;
the second move has only `prev_1_*` (from the first move, its only
predecessor), and the first move has no `prev_*` fields. -/
theorem claim_c2_amended (M : Type) (ops : GameOps M) (g : Game M) (i : Nat)
    (d : Feat) (hi : i < g.mainline_moves.length) :
    (i = 0 →
      ((loopFeats ops g).getD i d).prev_1_piece = none ∧
      ((loopFeats ops g).getD i d).prev_1_is_capture = none ∧
      ((loopFeats ops g).getD i d).prev_2_piece = none ∧
      ((loopFeats ops g).getD i d).prev_2_is_capture = none) ∧
    (i = 1 →
      ((loopFeats ops g).getD i d).prev_1_piece
          = some (((loopFeats ops g).getD 0 d).piece) ∧
      ((loopFeats ops g).getD i d).prev_1_is_capture
          = some (((loopFeats ops g).getD 0 d).is_capture) ∧
      ((loopFeats ops g).getD i d).prev_2_piece = none ∧
      ((loopFeats ops g).getD i d).prev_2_is_capture = none) ∧
    (2 ≤ i →
      ((loopFeats ops g).getD i d).prev_1_piece
          = some (((loopFeats ops g).getD (i - 2) d).piece) ∧
      ((loopFeats ops g).getD i d).prev_1_is_capture
          = some (((loopFeats ops g).getD (i - 2) d).is_capture) ∧
      ((loopFeats ops g).getD i d).prev_2_piece
          = some (((loopFeats ops g).getD (i - 1) d).piece) ∧
      ((loopFeats ops g).getD i d).prev_2_is_capture
          = some (((loopFeats ops g).getD (i - 1) d).is_capture)) := by
  rw [loopFeats_eq]
  set F := featsFrom ops g.board 0 [] g.mainline_moves with hFdef
  have hFlen : F.length = g.mainline_moves.length := by
    rw [hFdef]
    exact featsFrom_length ops g.mainline_moves g.board 0 []
  obtain ⟨m, hm⟩ := featsFrom_getD ops g.mainline_moves g.board 0 [] i d hi
  rw [List.nil_append, ← hFdef] at hm
  have htl : (F.take i).length = i := by
    rw [List.length_take]
    omega
  refine ⟨?_, ?_, ?_⟩
  · rintro rfl
    have hwin : (F.take 0).drop ((F.take 0).length - 2) = [] := by simp
    rw [hm]
    exact mkFeat_prev_nil ops _ _ m _ hwin
  · rintro rfl
    have hone : F.take 1 = [F.getD 0 d] := take_one_getD F d (by omega)
    have hwin : (F.take 1).drop ((F.take 1).length - 2) = [F.getD 0 d] := by
      rw [hone]
      rfl
    rw [hm]
    exact mkFeat_prev_one ops _ _ m _ _ hwin
  · intro h2
    have hlen2 : (F.take i).length = (i - 2) + 2 := by omega
    have hdrop := drop_len_sub_two d (F.take i) (i - 2) hlen2
    have e1 : (F.take i).getD (i - 2) d = F.getD (i - 2) d :=
      getD_take_lt F i (i - 2) d (by omega)
    have e2 : (F.take i).getD (i - 2 + 1) d = F.getD (i - 1) d := by
      rw [getD_take_lt F i (i - 2 + 1) d (by omega)]
      congr 1
      omega
    have hwin : (F.take i).drop ((F.take i).length - 2)
        = F.getD (i - 2) d :: F.getD (i - 1) d :: [] := by
      rw [htl, hdrop, e1, e2]
    rw [hm]
    exact mkFeat_prev_two ops _ _ m _ _ _ _ hwin

/-- Witness for the amended C2 at the third move of the concrete probe game. -/
theorem claim_c2_amended_witness :
    2 < probeGame.mainline_moves.length ∧
    (((loopFeats probeOps probeGame).getD 2 feat0).prev_1_piece
        = some (((loopFeats probeOps probeGame).getD 0 feat0).piece) ∧
      ((loopFeats probeOps probeGame).getD 2 feat0).prev_1_is_capture
        = some (((loopFeats probeOps probeGame).getD 0 feat0).is_capture) ∧
      ((loopFeats probeOps probeGame).getD 2 feat0).prev_2_piece
        = some (((loopFeats probeOps probeGame).getD 1 feat0).piece) ∧
      ((loopFeats probeOps probeGame).getD 2 feat0).prev_2_is_capture
        = some (((loopFeats probeOps probeGame).getD 1 feat0).is_capture)) :=
  ⟨by decide,
    (claim_c2_amended (Fin 64) probeOps probeGame 2 feat0 (by decide)).2.2 (by decide)⟩

/-- C7: `developed_pieces` counts exactly the squares holding a minor piece
(bishop or knight) of either color that is not standing on the minor-piece
starting squares of its color, white and black counted alike. -/
theorem claim_c7_developed_pieces (b : BoardI) :
    developed_pieces b
      = (Finset.univ.filter (fun sq : Fin 64 => isDevelopedMinor b sq = true)).card := by
  classical
  unfold developed_pieces pieces
  simp only [List.foldl_cons, List.foldl_nil, Nat.zero_add]
  rw [Finset.card_filter]
  simp only [Finset.card_filter, Finset.sum_filter]
  rw [← Finset.sum_add_distrib, ← Finset.sum_add_distrib, ← Finset.sum_add_distrib]
  apply Finset.sum_congr rfl
  intro sq _
  rcases hocc : b.occ sq with _ | ⟨pt, c⟩
  · simp [isDevelopedMinor, hocc]
  · cases pt <;> cases c <;>
      by_cases hw : sq ∈ ([sqB1, sqG1, sqC1, sqF1] : List (Fin 64)) <;>
      by_cases hb : sq ∈ ([sqB8, sqG8, sqC8, sqF8] : List (Fin 64)) <;>
      simp [isDevelopedMinor, hocc, hw, hb]

/-- C9: `material_balance` is antisymmetric under the color-swapped mirror
board: the mirrored board's balance is the negation of the original's. -/
theorem claim_c9_material_antisymmetry (b : BoardI) :
    material_balance (mirrorBoard b) = - material_balance b := by
  have hcard : ∀ (pt : PieceType) (c : Color),
      (pieces (mirrorBoard b) pt c).card = (pieces b pt c.other).card := by
    intro pt c
    rw [pieces_mirrorBoard,
      Finset.card_image_of_injective _ square_mirror_invol.injective]
  unfold material_balance
  simp only [List.foldl_cons, List.foldl_nil]
  rw [hcard, hcard, hcard, hcard, hcard, hcard, hcard, hcard, hcard, hcard]
  simp only [Color.other]
  ring
